import Mathlib

/-!
Verification of the libfins memory-area BCD16 read path
(`src/fins_01_01_bcd16.c`) and the name-set command (`src/fins_26_01.c`).

The C code is shallowly embedded:
* machine integers become `Nat`, with `% 2 ^ 64` (`sizeTMod`) at the points
  where `size_t` arithmetic can wrap and `% 256` / `% 65536` where the code
  truncates to `uint8_t` / `uint16_t`;
* NULL-able pointers become `Option`;
* the external collaborators that are not part of the two source files
  (`XX_finslib_decode_address`, `XX_finslib_search_area`,
  `XX_finslib_communicate`) are parameters of the embedding, gathered in a
  `ReadEnv` record: the embedded code is a function of their results, exactly
  as the C code is;
* the macro `FINS_MAX_READ_WORDS_SYSWAY` (defined in the header, which is not
  among the source files) is the parameter `maxRead`, one fixed positive
  number per call;
* the caller-supplied output array becomes a `List Nat` threaded through the
  loop, and every communicate call is recorded in a trace of `SentCmd`
  values so that statements about issued chunks and attempted I/O can be
  made.
-/

/-- `2 ^ 64`: modulus of `size_t` arithmetic. -/
def sizeTMod : Nat := 2 ^ 64

/-- The `FINS_RETVAL_...` status codes that the two source files mention.
`otherError` stands for any other code that `XX_finslib_communicate` can
produce (timeouts, remote end-code categories, ...). -/
inductive FinsRetval where
  | success
  | notInitialized
  | noReadAddress
  | noDataBlock
  | notConnected
  | invalidReadAddress
  | invalidReadArea
  | bodyTooShort
  | otherError (code : Nat)
deriving DecidableEq, Repr

/-- Transport kind of a session (stream = FINS/TCP, datagram = FINS/UDP).
The session structure itself is not among the source files; this field is
modelled from the spec's data model ("transport kind (stream vs datagram)")
so that claims about transport dependence can be stated. -/
inductive FinsTransport where
  | stream
  | datagram
deriving DecidableEq, Repr

/-- The part of `struct fins_sys_tp` that the two source files read:
`sockfd` (only compared against `INVALID_SOCKET`, so modelled as a Bool),
plus the spec-modelled transport kind. -/
structure FinsSys where
  sockfdValid : Bool
  transport : FinsTransport
deriving DecidableEq, Repr

/-- The part of `struct fins_address_tp` that `process_data` reads. -/
structure FinsAddressTp where
  mainAddress : Nat
deriving DecidableEq, Repr

/-- The part of `const struct fins_area_tp` that `process_data` reads:
`area` (the area code byte), `low_addr` and `low_id`. -/
structure FinsAreaTp where
  area : Nat
  lowAddr : Nat
  lowId : Nat
deriving DecidableEq, Repr

/-- One communicate call recorded by the embedding: the values of `offset`,
`chunk_start` and `chunk_length` at the moment the command was issued, the
area byte, and the 6 request body bytes exactly as lines 118-123 pack them. -/
structure SentCmd where
  area : Nat
  offset : Nat
  chunkStart : Nat
  chunkLength : Nat
  body : List Nat
deriving DecidableEq, Repr

/-- Default `SentCmd`, used with `List.getD`. -/
def noCmd : SentCmd := { area := 0, offset := 0, chunkStart := 0, chunkLength := 0, body := [] }

/-- Results of the external collaborators of `process_data` for one call:
`decodeAddress` is the outcome of `XX_finslib_decode_address` on the given
start address (`none` = parse failure), `searchArea` the outcome of
`XX_finslib_search_area` (`none` = NULL, area unknown or not permitted for
16-bit read access), and `comm k` the outcome of the `k`-th
`XX_finslib_communicate` call: its return value and the response body bytes
it places in the command buffer. -/
structure ReadEnv where
  decodeAddress : Option FinsAddressTp
  searchArea : FinsAddressTp → Option FinsAreaTp
  comm : Nat → FinsRetval × List Nat

/-- Nibble `i` (0 = least significant) of a word. -/
def nibble (w i : Nat) : Nat := w / 16 ^ i % 16

/-- Modelled from the spec: `finslib_bcd_to_int` for the unsigned BCD16 data
type is not among the source files; per the spec each of the 4 nibbles must
be a decimal digit 0-9 and the value is the sum of digit times the power of
ten of its position, while any nibble above 9 replaces the whole value with
the sentinel `INT16_MAX = 32767`. -/
def decode_unsigned_bcd16 (w : Nat) : Nat :=
  if nibble w 0 ≤ 9 ∧ nibble w 1 ≤ 9 ∧ nibble w 2 ≤ 9 ∧ nibble w 3 ≤ 9 then
    nibble w 3 * 1000 + nibble w 2 * 100 + nibble w 1 * 10 + nibble w 0
  else 32767

/-- Modelled from the spec: `finslib_int_to_bcd` for the unsigned BCD16 data
type is not among the source files; per the spec encoding packs the four
decimal digits of an in-domain value into the four nibbles of the wire
word. -/
def encode_unsigned_bcd16 (v : Nat) : Nat :=
  v / 1000 % 10 * 4096 + v / 100 % 10 * 256 + v / 10 % 10 * 16 + v % 10

/-- Lines 133-135: assemble the `a`-th response word of a chunk from the two
bytes at positions `2 + 2a` and `2 + 2a + 1` of the response body
(`bcd_val = body[..] << 8; bcd_val += body[..]`); bytes are `uint8_t`. -/
def decodeWord (respBody : List Nat) (a : Nat) : Nat :=
  respBody.getD (2 + 2 * a) 0 % 256 * 256 + respBody.getD (2 + 2 * a + 1) 0 % 256

/-- Lines 111-112: `chunk_length = FINS_MAX_READ_WORDS_SYSWAY;
if (chunk_length > todo) chunk_length = todo;`. -/
def chunkLen (maxRead todo : Nat) : Nat :=
  if maxRead > todo then todo else maxRead

/-- Lines 131-138: the decode loop of one chunk; writes word `a` of the
response into `data[offset + a]` for `a < count`, as
`(uint16_t) finslib_bcd_to_int(bcd_val, type)`. -/
def writeWords (bcdToInt : Nat → Nat) (respBody : List Nat) (offset : Nat) :
    List Nat → Nat → Nat → List Nat
  | buf, _, 0 => buf
  | buf, a, count + 1 =>
    writeWords bcdToInt respBody offset
      (buf.set (offset + a) (bcdToInt (decodeWord respBody a) % 65536)) (a + 1) count

/-- Lines 110-144: the `do { ... } while (todo > 0)` loop of `process_data`.
`todo` words remain, the next word goes to `data[offset]`, the wire address
of the next chunk is `chunkStart`, and `k` communicate calls were already
made.  Returns the final status, the final output buffer, and the list of
commands issued from this iteration on.  `hm` records that the header
constant `FINS_MAX_READ_WORDS_SYSWAY` is positive (with a zero constant the
C loop would not terminate). -/
def readLoop (maxRead : Nat) (hm : 0 < maxRead) (env : ReadEnv) (bcdToInt : Nat → Nat)
    (areaByte : Nat) (todo offset chunkStart k : Nat) (buf : List Nat) :
    FinsRetval × List Nat × List SentCmd :=
  let cmd : SentCmd :=
    { area := areaByte, offset := offset, chunkStart := chunkStart,
      chunkLength := chunkLen maxRead todo,
      body := [areaByte, chunkStart / 256 % 256, chunkStart % 256, 0,
               chunkLen maxRead todo / 256 % 256, chunkLen maxRead todo % 256] }
  let resp := env.comm k
  if resp.1 ≠ FinsRetval.success then (resp.1, buf, [cmd])
  else if resp.2.length ≠ 2 + 2 * chunkLen maxRead todo then
    (FinsRetval.bodyTooShort, buf, [cmd])
  else
    let buf2 := writeWords bcdToInt resp.2 offset buf 0 (chunkLen maxRead todo)
    if h : 0 < todo - chunkLen maxRead todo then
      let r := readLoop maxRead hm env bcdToInt areaByte (todo - chunkLen maxRead todo)
        (offset + chunkLen maxRead todo) ((chunkStart + chunkLen maxRead todo) % sizeTMod)
        (k + 1) buf2
      (r.1, r.2.1, cmd :: r.2.2)
    else (FinsRetval.success, buf2, [cmd])
termination_by todo
decreasing_by
  have h1 : 0 < chunkLen maxRead todo := by
    unfold chunkLen
    split
    all_goals omega
  omega

/-- Line 107: the base wire address,
`chunk_start = address.main_address + (area->low_addr >> 8) - area->low_id`
in `size_t` arithmetic. -/
def baseChunkStart (address : FinsAddressTp) (area : FinsAreaTp) : Nat :=
  (address.mainAddress + area.lowAddr / 256 + (sizeTMod - area.lowId % sizeTMod)) % sizeTMod

/-- Lines 80-148: `process_data`.  The argument checks of lines 94-102 in
source order, then the chunk loop.  `data` is the caller's output array
(`none` = NULL pointer); the result carries the final status, the final
output array and the trace of issued commands. -/
def process_data (maxRead : Nat) (hm : 0 < maxRead) (env : ReadEnv)
    (sys : Option FinsSys) (start : Option String) (data : Option (List Nat))
    (num_bcd16 : Nat) (bcdToInt : Nat → Nat) :
    FinsRetval × Option (List Nat) × List SentCmd :=
  if num_bcd16 = 0 then (FinsRetval.success, data, [])
  else
    match sys with
    | none => (FinsRetval.notInitialized, data, [])
    | some s =>
      match start with
      | none => (FinsRetval.noReadAddress, data, [])
      | some _ =>
        match data with
        | none => (FinsRetval.noDataBlock, none, [])
        | some buf =>
          if s.sockfdValid = false then (FinsRetval.notConnected, some buf, [])
          else
            match env.decodeAddress with
            | none => (FinsRetval.invalidReadAddress, some buf, [])
            | some address =>
              match env.searchArea address with
              | none => (FinsRetval.invalidReadArea, some buf, [])
              | some area =>
                let r := readLoop maxRead hm env bcdToInt area.area num_bcd16 0
                  (baseChunkStart address area) 0 buf
                (r.1, some r.2.1, r.2.2)

/-- Lines 49-53: `finslib_memory_area_read_bcd16` delegates to `process_data`
with the unsigned BCD16 data type, i.e. with `finslib_bcd_to_int(·, FINS_DATA_TYPE_BCD16)`
as the word codec. -/
def finslib_memory_area_read_bcd16 (maxRead : Nat) (hm : 0 < maxRead) (env : ReadEnv)
    (sys : Option FinsSys) (start : Option String) (data : Option (List Nat))
    (num_bcd16 : Nat) : FinsRetval × Option (List Nat) × List SentCmd :=
  process_data maxRead hm env sys start data num_bcd16 decode_unsigned_bcd16

/-- Lines 59-63 of `fins_26_01.c`: the copy loop
`while (bodylen < 8 && name[bodylen] != 0) body[bodylen] = name[bodylen++]`.
The C string is a byte list; the list end or a zero byte is the
terminator. -/
def nameCopy (bodylen : Nat) : List Nat → List Nat
  | [] => []
  | c :: cs =>
    if bodylen < 8 then (if c ≠ 0 then c :: nameCopy (bodylen + 1) cs else []) else []

/-- Lines 45-71 of `fins_26_01.c`: `finslib_name_set`.  `comm` is the outcome
of the single `XX_finslib_communicate` call (status, response body); the
result carries the status and the list of transmitted command bodies. -/
def finslib_name_set (sys : Option FinsSys) (name : Option (List Nat))
    (comm : FinsRetval × List Nat) : FinsRetval × List (List Nat) :=
  match sys with
  | none => (FinsRetval.notInitialized, [])
  | some s =>
    if s.sockfdValid = false then (FinsRetval.notConnected, [])
    else
      match name with
      | none => (FinsRetval.noDataBlock, [])
      | some nm =>
        let body := nameCopy 0 nm
        if comm.1 ≠ FinsRetval.success then (comm.1, [body])
        else if comm.2.length ≠ 2 then (FinsRetval.bodyTooShort, [body])
        else (FinsRetval.success, [body])

/-- The value that the decode loop stores for the `j`-th word (counting from
the loop entry): word `j % maxRead` of the response to communicate call
`k + j / maxRead`, decoded and truncated to `uint16_t`. -/
def readDecoded (env : ReadEnv) (bcdToInt : Nat → Nat) (maxRead k j : Nat) : Nat :=
  bcdToInt (decodeWord (env.comm (k + j / maxRead)).2 (j % maxRead)) % 65536

/-- A chunk response is well-formed: communicate succeeded and the response
body has exactly the expected `2 + 2 * length` bytes.  `c` counts chunks from
the loop entry at `todo` remaining words and communicate index `k`. -/
def chunkRespOk (env : ReadEnv) (maxRead k todo c : Nat) : Prop :=
  (env.comm (k + c)).1 = FinsRetval.success ∧
    (env.comm (k + c)).2.length = 2 + 2 * chunkLen maxRead (todo - c * maxRead)

instance (env : ReadEnv) (maxRead k todo c : Nat) :
    Decidable (chunkRespOk env maxRead k todo c) := by
  unfold chunkRespOk
  infer_instance

/-- A concrete start-address text for witnesses; `process_data` only passes
it to the (oracle-modelled) address decoder, so its contents are
irrelevant. -/
def addrText : String := "D0"

/-- Concrete environment for the C1 witness: one 2-word chunk whose response
carries the invalid word 0x12A4 and the valid word 0x1234. -/
def envC1w : ReadEnv :=
  { decodeAddress := some { mainAddress := 0 },
    searchArea := fun _ => some { area := 0x82, lowAddr := 0, lowId := 0 },
    comm := fun _ => (FinsRetval.success, [0, 0, 0x12, 0xA4, 0x12, 0x34]) }

/-- Concrete environment for the C2 witness: three chunks (2 + 2 + 1 words)
with well-formed responses. -/
def envC2w : ReadEnv :=
  { decodeAddress := some { mainAddress := 10 },
    searchArea := fun _ => some { area := 0x82, lowAddr := 0x100, lowId := 1 },
    comm := fun k =>
      if k < 2 then (FinsRetval.success, [0, 0, 0x11, 0x11, 0x22, 0x22])
      else (FinsRetval.success, [0, 0, 0x33, 0x33]) }

/-- Concrete environment for the C3 counterexample and witness: two 2-word
chunks with well-formed responses. -/
def envC3x : ReadEnv :=
  { decodeAddress := some { mainAddress := 0 },
    searchArea := fun _ => some { area := 0x82, lowAddr := 0, lowId := 0 },
    comm := fun _ => (FinsRetval.success, [0, 0, 0x11, 0x11, 0x22, 0x22]) }

/-- Concrete environment for the C4 witness: chunk 0 is well formed, chunk 1
returns a 3-byte body where `2 + 2 * 1 = 4` bytes are expected. -/
def envC4w : ReadEnv :=
  { decodeAddress := some { mainAddress := 0 },
    searchArea := fun _ => some { area := 0x82, lowAddr := 0, lowId := 0 },
    comm := fun k =>
      if k = 0 then (FinsRetval.success, [0, 0, 0x12, 0x34, 0x56, 0x78])
      else (FinsRetval.success, [0, 0, 0x99]) }

/-- Concrete environment for the C5 witness: chunk 0 is well formed, chunk 1
fails with a communicate error. -/
def envC5w : ReadEnv :=
  { decodeAddress := some { mainAddress := 0 },
    searchArea := fun _ => some { area := 0x82, lowAddr := 0, lowId := 0 },
    comm := fun k =>
      if k = 0 then (FinsRetval.success, [0, 0, 0x12, 0x34, 0x00, 0x09])
      else (FinsRetval.otherError 3, []) }

/-- Concrete environment for the C10 witness: the single 1-word chunk gets an
8-byte response body where exactly 4 bytes are expected (longer, not
shorter). -/
def envC10w : ReadEnv :=
  { decodeAddress := some { mainAddress := 0 },
    searchArea := fun _ => some { area := 0x80, lowAddr := 0, lowId := 0 },
    comm := fun _ => (FinsRetval.success, [0, 0, 0x12, 0x34, 0, 0, 0, 0]) }

theorem chunkLen_pos {m t : Nat} (hm : 0 < m) (ht : 0 < t) : 0 < chunkLen m t := by
  unfold chunkLen
  split
  all_goals omega

theorem chunkLen_le_max {m t : Nat} : chunkLen m t ≤ m := by
  unfold chunkLen
  split
  all_goals omega

theorem chunkLen_le_todo {m t : Nat} : chunkLen m t ≤ t := by
  unfold chunkLen
  split
  all_goals omega

theorem writeWords_length (b : Nat → Nat) (r : List Nat) (o : Nat) :
    ∀ count a buf, (writeWords b r o buf a count).length = buf.length := by
  intro count
  induction count with
  | zero => intro a buf; rfl
  | succ n ih =>
    intro a buf
    have hstep : writeWords b r o buf a (n + 1) =
        writeWords b r o (buf.set (o + a) (b (decodeWord r a) % 65536)) (a + 1) n := rfl
    rw [hstep, ih, List.length_set]

/-- The decode loop of one chunk sets exactly the positions
`offset + a, ..., offset + a + count - 1` that lie inside the buffer, each to
the decoded word of its own index, and leaves every other position as it
was. -/
theorem writeWords_getElem? (b : Nat → Nat) (r : List Nat) (o : Nat) :
    ∀ count a buf p, (writeWords b r o buf a count)[p]? =
      if o + a ≤ p ∧ p < o + a + count ∧ p < buf.length then
        some (b (decodeWord r (p - o)) % 65536)
      else buf[p]? := by
  intro count
  induction count with
  | zero =>
    intro a buf p
    rw [if_neg (by omega)]
    rfl
  | succ n ih =>
    intro a buf p
    have hstep : writeWords b r o buf a (n + 1) =
        writeWords b r o (buf.set (o + a) (b (decodeWord r a) % 65536)) (a + 1) n := rfl
    rw [hstep, ih, List.length_set]
    by_cases h1 : o + (a + 1) ≤ p ∧ p < o + (a + 1) + n ∧ p < buf.length
    · rw [if_pos h1, if_pos (by omega)]
    · rw [if_neg h1]
      by_cases h2 : p = o + a
      · subst h2
        by_cases h3 : o + a < buf.length
        · rw [List.getElem?_set_eq_of_lt _ h3, if_pos (by omega)]
          have ha : o + a - o = a := by omega
          rw [ha]
        · rw [if_neg (by omega), List.set_eq_of_length_le (by omega)]
      · rw [List.getElem?_set_ne (by omega), if_neg (by omega)]

/-- Structure of the command trace produced by the chunk loop: it is
nonempty, its first command carries the entry `offset`, `chunkStart` and the
planned first chunk length, every chunk length is positive and at most
`maxRead`, consecutive commands are contiguous both in output offsets and
(modulo `size_t`) in wire addresses, and on success the chunk lengths sum to
`todo`. -/
theorem readLoop_trace (maxRead : Nat) (hm : 0 < maxRead) (env : ReadEnv)
    (bcdToInt : Nat → Nat) (areaByte : Nat) :
    ∀ todo, 0 < todo → ∀ offset chunkStart k buf res buf' tr,
      readLoop maxRead hm env bcdToInt areaByte todo offset chunkStart k buf =
        (res, buf', tr) →
      0 < tr.length ∧
      (tr.getD 0 noCmd).offset = offset ∧
      (tr.getD 0 noCmd).chunkStart = chunkStart ∧
      (tr.getD 0 noCmd).chunkLength = chunkLen maxRead todo ∧
      (∀ i, i < tr.length →
        0 < (tr.getD i noCmd).chunkLength ∧ (tr.getD i noCmd).chunkLength ≤ maxRead) ∧
      (∀ i, i + 1 < tr.length →
        (tr.getD (i + 1) noCmd).offset =
          (tr.getD i noCmd).offset + (tr.getD i noCmd).chunkLength ∧
        (tr.getD (i + 1) noCmd).chunkStart =
          ((tr.getD i noCmd).chunkStart + (tr.getD i noCmd).chunkLength) % sizeTMod) ∧
      (res = FinsRetval.success → (tr.map SentCmd.chunkLength).sum = todo) := by
  intro todo
  induction todo using Nat.strong_induction_on with
  | _ todo ih =>
    intro htodo offset chunkStart k buf res buf' tr heq
    have hclpos : 0 < chunkLen maxRead todo := chunkLen_pos hm htodo
    have hclle : chunkLen maxRead todo ≤ todo := chunkLen_le_todo
    have hclm : chunkLen maxRead todo ≤ maxRead := chunkLen_le_max
    rw [readLoop] at heq
    split at heq
    · -- communicate failed
      rename_i hfail
      injection heq with h1 h2
      injection h2 with h2 h3
      subst h1 h2 h3
      refine ⟨by simp, rfl, rfl, rfl, ?_, ?_, ?_⟩
      · intro i hi
        simp only [List.length_singleton] at hi
        interval_cases i
        exact ⟨hclpos, hclm⟩
      · intro i hi
        simp only [List.length_singleton] at hi
        omega
      · intro hs
        rw [hs] at hfail
        exact absurd rfl hfail
    · split at heq
      · -- body length mismatch
        injection heq with h1 h2
        injection h2 with h2 h3
        subst h1 h2 h3
        refine ⟨by simp, rfl, rfl, rfl, ?_, ?_, ?_⟩
        · intro i hi
          simp only [List.length_singleton] at hi
          interval_cases i
          exact ⟨hclpos, hclm⟩
        · intro i hi
          simp only [List.length_singleton] at hi
          omega
        · intro hs
          exact absurd hs.symm (by simp)
      · split at heq
        · -- more chunks to do: recursive call
          rename_i hrec
          injection heq with h1 h2
          injection h2 with h2 h3
          subst h1 h2 h3
          obtain ⟨hlen', hoff', hcs', hcl', hbound', hchain', hsum'⟩ :=
            ih (todo - chunkLen maxRead todo) (by omega) (by omega)
              (offset + chunkLen maxRead todo)
              ((chunkStart + chunkLen maxRead todo) % sizeTMod) (k + 1) _ _ _ _ rfl
          refine ⟨by simp, rfl, rfl, rfl, ?_, ?_, ?_⟩
          · intro i hi
            cases i with
            | zero => exact ⟨hclpos, hclm⟩
            | succ j =>
              simp only [List.getD_cons_succ]
              simp only [List.length_cons] at hi
              exact hbound' j (Nat.lt_of_succ_lt_succ hi)
          · intro i hi
            cases i with
            | zero =>
              simp only [List.getD_cons_succ, List.getD_cons_zero]
              rw [hoff', hcs']
              exact ⟨rfl, rfl⟩
            | succ j =>
              simp only [List.getD_cons_succ]
              simp only [List.length_cons] at hi
              exact hchain' j (Nat.lt_of_succ_lt_succ hi)
          · intro hs
            simp only [List.map_cons, List.sum_cons]
            rw [hsum' hs]
            omega
        · -- last chunk
          injection heq with h1 h2
          injection h2 with h2 h3
          subst h1 h2 h3
          refine ⟨by simp, rfl, rfl, rfl, ?_, ?_, ?_⟩
          · intro i hi
            simp only [List.length_singleton] at hi
            interval_cases i
            exact ⟨hclpos, hclm⟩
          · intro i hi
            simp only [List.length_singleton] at hi
            omega
          · intro _
            simp only [List.map_cons, List.map_nil, List.sum_cons, List.sum_nil]
            omega

theorem chunkRespOk_shift (env : ReadEnv) (maxRead k todo c : Nat) :
    chunkRespOk env maxRead (k + 1) (todo - maxRead) c ↔
      chunkRespOk env maxRead k todo (c + 1) := by
  unfold chunkRespOk
  have h1 : k + 1 + c = k + (c + 1) := by omega
  have h2 : todo - maxRead - c * maxRead = todo - (c + 1) * maxRead := by
    have h3 : (c + 1) * maxRead = c * maxRead + maxRead := by rw [Nat.succ_mul]
    omega
  rw [h1, h2]

theorem readDecoded_shift (env : ReadEnv) (bcdToInt : Nat → Nat) (m k j : Nat)
    (hm : 0 < m) :
    readDecoded env bcdToInt m k (j + m) = readDecoded env bcdToInt m (k + 1) j := by
  unfold readDecoded
  rw [Nat.add_div_right _ hm, Nat.add_mod_right]
  have h1 : k + (j / m + 1) = k + 1 + j / m := by omega
  rw [h1]

theorem readDecoded_lt (env : ReadEnv) (bcdToInt : Nat → Nat) (m k j : Nat)
    (hj : j < m) :
    readDecoded env bcdToInt m k j = bcdToInt (decodeWord (env.comm k).2 j) % 65536 := by
  unfold readDecoded
  rw [Nat.div_eq_of_lt hj, Nat.mod_eq_of_lt hj, Nat.add_zero]

/-- When every chunk of the remaining plan gets a successful, well-formed
response, the loop returns success, leaves every position below `offset` and
at or above `offset + todo` untouched, and stores the decoded word `j` at
position `offset + j` for every `j < todo` that lies inside the buffer. -/
theorem readLoop_success (maxRead : Nat) (hm : 0 < maxRead) (env : ReadEnv)
    (bcdToInt : Nat → Nat) (areaByte : Nat) :
    ∀ todo, 0 < todo → ∀ offset chunkStart k buf res buf' tr,
      readLoop maxRead hm env bcdToInt areaByte todo offset chunkStart k buf =
        (res, buf', tr) →
      (∀ c, c * maxRead < todo → chunkRespOk env maxRead k todo c) →
      res = FinsRetval.success ∧
      buf'.length = buf.length ∧
      (∀ p, p < offset → buf'[p]? = buf[p]?) ∧
      (∀ p, offset + todo ≤ p → buf'[p]? = buf[p]?) ∧
      (∀ j, j < todo → offset + j < buf.length →
        buf'[offset + j]? = some (readDecoded env bcdToInt maxRead k j)) := by
  intro todo
  induction todo using Nat.strong_induction_on with
  | _ todo ih =>
    intro htodo offset chunkStart k buf res buf' tr heq hok
    have hclle : chunkLen maxRead todo ≤ todo := chunkLen_le_todo
    have hclm : chunkLen maxRead todo ≤ maxRead := chunkLen_le_max
    have hok0 := hok 0 (by omega)
    unfold chunkRespOk at hok0
    simp only [Nat.add_zero, Nat.zero_mul, Nat.sub_zero] at hok0
    rw [readLoop] at heq
    split at heq
    · rename_i hfail
      exact absurd hok0.1 hfail
    · split at heq
      · rename_i hlen
        exact absurd hok0.2 hlen
      · split at heq
        · rename_i hmore
          have hcleq : chunkLen maxRead todo = maxRead := by
            by_cases hgt : maxRead > todo
            · exfalso
              have h4 : chunkLen maxRead todo = todo := by
                unfold chunkLen
                rw [if_pos hgt]
              omega
            · unfold chunkLen
              rw [if_neg hgt]
          rw [hcleq] at heq hmore
          have hmle : maxRead ≤ todo := by omega
          injection heq with h1 h2
          injection h2 with h2 h3
          subst h1 h2 h3
          obtain ⟨hres', hlen', hlow', hhigh', hval'⟩ :=
            ih (todo - maxRead) (by omega) (by omega) (offset + maxRead)
              ((chunkStart + maxRead) % sizeTMod) (k + 1)
              (writeWords bcdToInt (env.comm k).2 offset buf 0 maxRead) _ _ _ rfl
              (fun c hc => (chunkRespOk_shift env maxRead k todo c).mpr
                (hok (c + 1) (by
                  have h3 : (c + 1) * maxRead = c * maxRead + maxRead := by
                    rw [Nat.succ_mul]
                  omega)))
          refine ⟨hres', ?_, ?_, ?_, ?_⟩
          · rw [hlen', writeWords_length]
          · intro p hp
            rw [hlow' p (by omega), writeWords_getElem?, if_neg (by omega)]
          · intro p hp
            rw [hhigh' p (by omega), writeWords_getElem?, if_neg (by omega)]
          · intro j hj hjb
            by_cases hjm : j < maxRead
            · rw [hlow' (offset + j) (by omega), writeWords_getElem?,
                if_pos (by exact ⟨by omega, by omega, by omega⟩)]
              have hoj : offset + j - offset = j := by omega
              rw [hoj, readDecoded_lt env bcdToInt maxRead k j hjm]
            · have hj2 : j - maxRead < todo - maxRead := by omega
              have hjeq : offset + j = offset + maxRead + (j - maxRead) := by omega
              rw [hjeq, hval' (j - maxRead) hj2 (by rw [writeWords_length]; omega)]
              have hshift := readDecoded_shift env bcdToInt maxRead k (j - maxRead) hm
              have hjj : j - maxRead + maxRead = j := by omega
              rw [hjj] at hshift
              rw [hshift]
        · rename_i hlast
          injection heq with h1 h2
          injection h2 with h2 h3
          subst h1 h2 h3
          have hcleq : chunkLen maxRead todo = todo := by omega
          rw [hcleq] at hlast ⊢
          refine ⟨rfl, writeWords_length _ _ _ _ _ _, ?_, ?_, ?_⟩
          · intro p hp
            rw [writeWords_getElem?, if_neg (by omega)]
          · intro p hp
            rw [writeWords_getElem?, if_neg (by omega)]
          · intro j hj hjb
            rw [writeWords_getElem?, if_pos (by exact ⟨by omega, by omega, by omega⟩)]
            have hoj : offset + j - offset = j := by omega
            rw [hoj, readDecoded_lt env bcdToInt maxRead k j (by omega)]

/-- If the first `f` chunks get well-formed responses and chunk `f` fails
(communicate error, or a response body whose length differs from the
expected one), the loop stops with the corresponding status after exactly
`f + 1` communicate calls, having decoded exactly the words of the first `f`
chunks and touched no other position. -/
theorem readLoop_fail (maxRead : Nat) (hm : 0 < maxRead) (env : ReadEnv)
    (bcdToInt : Nat → Nat) (areaByte : Nat) :
    ∀ todo, 0 < todo → ∀ f offset chunkStart k buf res buf' tr,
      readLoop maxRead hm env bcdToInt areaByte todo offset chunkStart k buf =
        (res, buf', tr) →
      f * maxRead < todo →
      (∀ c, c < f → chunkRespOk env maxRead k todo c) →
      ¬ chunkRespOk env maxRead k todo f →
      res = (if (env.comm (k + f)).1 ≠ FinsRetval.success then (env.comm (k + f)).1
             else FinsRetval.bodyTooShort) ∧
      res ≠ FinsRetval.success ∧
      buf'.length = buf.length ∧
      (∀ p, p < offset → buf'[p]? = buf[p]?) ∧
      (∀ p, offset + f * maxRead ≤ p → buf'[p]? = buf[p]?) ∧
      (∀ j, j < f * maxRead → offset + j < buf.length →
        buf'[offset + j]? = some (readDecoded env bcdToInt maxRead k j)) ∧
      tr.length = f + 1 := by
  intro todo
  induction todo using Nat.strong_induction_on with
  | _ todo ih =>
    intro htodo f offset chunkStart k buf res buf' tr heq hfin hok hfail
    have hclle : chunkLen maxRead todo ≤ todo := chunkLen_le_todo
    have hclm : chunkLen maxRead todo ≤ maxRead := chunkLen_le_max
    cases f with
    | zero =>
      unfold chunkRespOk at hfail
      simp only [Nat.add_zero, Nat.zero_mul, Nat.sub_zero] at hfail ⊢
      rw [readLoop] at heq
      split at heq
      · rename_i hcomm
        injection heq with h1 h2
        injection h2 with h2 h3
        subst h1 h2 h3
        refine ⟨by rw [if_pos hcomm], hcomm, rfl, fun p _ => rfl, fun p _ => rfl, ?_, rfl⟩
        intro j hj
        omega
      · rename_i hcomm
        split at heq
        · rename_i hlen
          injection heq with h1 h2
          injection h2 with h2 h3
          subst h1 h2 h3
          refine ⟨by rw [if_neg hcomm], by simp, rfl, fun p _ => rfl, fun p _ => rfl,
            ?_, rfl⟩
          intro j hj
          omega
        · rename_i hlen
          exact absurd ⟨not_not.mp hcomm, not_not.mp hlen⟩ hfail
    | succ f' =>
      have hsm : (f' + 1) * maxRead = f' * maxRead + maxRead := by rw [Nat.succ_mul]
      have hok0 := hok 0 (by omega)
      unfold chunkRespOk at hok0
      simp only [Nat.add_zero, Nat.zero_mul, Nat.sub_zero] at hok0
      rw [readLoop] at heq
      split at heq
      · rename_i hcomm
        exact absurd hok0.1 hcomm
      · split at heq
        · rename_i hlen
          exact absurd hok0.2 hlen
        · split at heq
          · rename_i hmore
            have hcleq : chunkLen maxRead todo = maxRead := by
              by_cases hgt : maxRead > todo
              · exfalso
                have h4 : chunkLen maxRead todo = todo := by
                  unfold chunkLen
                  rw [if_pos hgt]
                omega
              · unfold chunkLen
                rw [if_neg hgt]
            rw [hcleq] at heq hmore
            injection heq with h1 h2
            injection h2 with h2 h3
            subst h1 h2 h3
            obtain ⟨hres', hne', hlen', hlow', hhigh', hval', htr'⟩ :=
              ih (todo - maxRead) (by omega) (by omega) f' (offset + maxRead)
                ((chunkStart + maxRead) % sizeTMod) (k + 1)
                (writeWords bcdToInt (env.comm k).2 offset buf 0 maxRead) _ _ _ rfl
                (by omega)
                (fun c hc => (chunkRespOk_shift env maxRead k todo c).mpr
                  (hok (c + 1) (by omega)))
                (fun hc => hfail ((chunkRespOk_shift env maxRead k todo f').mp hc))
            have hix : k + 1 + f' = k + (f' + 1) := by omega
            rw [hix] at hres'
            refine ⟨hres', hne', ?_, ?_, ?_, ?_, ?_⟩
            · rw [hlen', writeWords_length]
            · intro p hp
              rw [hlow' p (by omega), writeWords_getElem?, if_neg (by omega)]
            · intro p hp
              rw [hhigh' p (by omega), writeWords_getElem?, if_neg (by omega)]
            · intro j hj hjb
              by_cases hjm : j < maxRead
              · rw [hlow' (offset + j) (by omega), writeWords_getElem?,
                  if_pos (by exact ⟨by omega, by omega, by omega⟩)]
                have hoj : offset + j - offset = j := by omega
                rw [hoj, readDecoded_lt env bcdToInt maxRead k j hjm]
              · have hj2 : j - maxRead < f' * maxRead := by omega
                have hjeq : offset + j = offset + maxRead + (j - maxRead) := by omega
                rw [hjeq, hval' (j - maxRead) hj2 (by rw [writeWords_length]; omega)]
                have hshift := readDecoded_shift env bcdToInt maxRead k (j - maxRead) hm
                have hjj : j - maxRead + maxRead = j := by omega
                rw [hjj] at hshift
                rw [hshift]
            · simp only [List.length_cons, htr']
          · rename_i hlast
            exfalso
            omega

/-- Once the argument checks of lines 94-102 pass, `process_data` is exactly
the chunk loop started at `offset = 0`, communicate call `0` and the base
wire address of line 107. -/
theorem process_data_run (maxRead : Nat) (hm : 0 < maxRead) (env : ReadEnv)
    (s : FinsSys) (st : String) (buf : List Nat) (n : Nat) (bcdToInt : Nat → Nat)
    (addr : FinsAddressTp) (area : FinsAreaTp)
    (hn : n ≠ 0) (hs : s.sockfdValid = true)
    (hdec : env.decodeAddress = some addr) (hsearch : env.searchArea addr = some area) :
    process_data maxRead hm env (some s) (some st) (some buf) n bcdToInt =
      ((readLoop maxRead hm env bcdToInt area.area n 0 (baseChunkStart addr area) 0 buf).1,
       some (readLoop maxRead hm env bcdToInt area.area n 0 (baseChunkStart addr area) 0 buf).2.1,
       (readLoop maxRead hm env bcdToInt area.area n 0 (baseChunkStart addr area) 0 buf).2.2) := by
  unfold process_data
  rw [if_neg hn]
  dsimp only
  rw [hs, if_neg (by decide), hdec]
  dsimp only
  rw [hsearch]

/-- `process_data` never reads the transport kind of the session: its entire
result is unchanged when only the transport differs. -/
theorem process_data_transport (maxRead : Nat) (hm : 0 < maxRead) (env : ReadEnv)
    (v : Bool) (t1 t2 : FinsTransport) (start : Option String) (data : Option (List Nat))
    (n : Nat) (bcdToInt : Nat → Nat) :
    process_data maxRead hm env (some ⟨v, t1⟩) start data n bcdToInt =
      process_data maxRead hm env (some ⟨v, t2⟩) start data n bcdToInt := rfl

/-- The copy loop of `finslib_name_set` over a zero-free byte string takes
the first `8 - bodylen` bytes. -/
theorem nameCopy_eq_take (nm : List Nat) (hnz : ∀ c ∈ nm, c ≠ 0) :
    ∀ b, nameCopy b nm = nm.take (8 - b) := by
  induction nm with
  | nil => intro b; simp [nameCopy]
  | cons c cs ih =>
    intro b
    have hc : c ≠ 0 := hnz c (List.mem_cons_self c cs)
    have ih2 := ih (fun x hx => hnz x (List.mem_cons_of_mem c hx))
    unfold nameCopy
    by_cases hb : b < 8
    · rw [if_pos hb, if_pos hc, ih2 (b + 1)]
      have h8 : 8 - b = (8 - (b + 1)) + 1 := by omega
      rw [h8, List.take_succ_cons]
    · rw [if_neg hb]
      have h8 : 8 - b = 0 := by omega
      rw [h8, List.take_zero]

/-- Claim C6: every precondition and resolution failure is detected and
returned before any network I/O (empty command trace) and with the output
buffer unchanged: an unconnected session yields NotConnected (both in the
memory read and in the name-set command), an unparsable address text yields
InvalidReadAddress, and an unknown or not-permitted area yields
InvalidReadArea. -/
theorem claim_C6 :
    (∀ (maxRead : Nat) (hm : 0 < maxRead) (env : ReadEnv) (s : FinsSys) (st : String)
      (buf : List Nat) (n : Nat) (bcdToInt : Nat → Nat), n ≠ 0 → s.sockfdValid = false →
      process_data maxRead hm env (some s) (some st) (some buf) n bcdToInt =
        (FinsRetval.notConnected, some buf, [])) ∧
    (∀ (maxRead : Nat) (hm : 0 < maxRead) (env : ReadEnv) (s : FinsSys) (st : String)
      (buf : List Nat) (n : Nat) (bcdToInt : Nat → Nat), n ≠ 0 → s.sockfdValid = true →
      env.decodeAddress = none →
      process_data maxRead hm env (some s) (some st) (some buf) n bcdToInt =
        (FinsRetval.invalidReadAddress, some buf, [])) ∧
    (∀ (maxRead : Nat) (hm : 0 < maxRead) (env : ReadEnv) (s : FinsSys) (st : String)
      (buf : List Nat) (n : Nat) (bcdToInt : Nat → Nat) (addr : FinsAddressTp),
      n ≠ 0 → s.sockfdValid = true →
      env.decodeAddress = some addr → env.searchArea addr = none →
      process_data maxRead hm env (some s) (some st) (some buf) n bcdToInt =
        (FinsRetval.invalidReadArea, some buf, [])) ∧
    (∀ (s : FinsSys) (name : Option (List Nat)) (comm : FinsRetval × List Nat),
      s.sockfdValid = false →
      finslib_name_set (some s) name comm = (FinsRetval.notConnected, [])) := by
  refine ⟨?_, ?_, ?_, ?_⟩
  · intro maxRead hm env s st buf n bcdToInt hn hs
    unfold process_data
    rw [if_neg hn]
    dsimp only
    rw [hs, if_pos rfl]
  · intro maxRead hm env s st buf n bcdToInt hn hs hdec
    unfold process_data
    rw [if_neg hn]
    dsimp only
    rw [hs, if_neg (by decide), hdec]
  · intro maxRead hm env s st buf n bcdToInt addr hn hs hdec hsearch
    unfold process_data
    rw [if_neg hn]
    dsimp only
    rw [hs, if_neg (by decide), hdec]
    dsimp only
    rw [hsearch]
  · intro s name comm hs
    unfold finslib_name_set
    dsimp only
    rw [hs, if_pos rfl]

/-- Claim C6 witness: concrete instances of the four failure cases. -/
theorem claim_C6_witness :
    process_data 3 (by decide) ⟨none, fun _ => none, fun _ => (FinsRetval.success, [])⟩
        (some ⟨false, FinsTransport.stream⟩) (some addrText) (some [5]) 1 id =
      (FinsRetval.notConnected, some [5], []) ∧
    process_data 3 (by decide) ⟨none, fun _ => none, fun _ => (FinsRetval.success, [])⟩
        (some ⟨true, FinsTransport.stream⟩) (some addrText) (some [5]) 1 id =
      (FinsRetval.invalidReadAddress, some [5], []) ∧
    process_data 3 (by decide) ⟨some ⟨7⟩, fun _ => none, fun _ => (FinsRetval.success, [])⟩
        (some ⟨true, FinsTransport.stream⟩) (some addrText) (some [5]) 1 id =
      (FinsRetval.invalidReadArea, some [5], []) ∧
    finslib_name_set (some ⟨false, FinsTransport.datagram⟩) (some [65, 66])
        (FinsRetval.success, [0, 0]) = (FinsRetval.notConnected, []) :=
  ⟨claim_C6.1 3 (by decide) _ _ addrText [5] 1 id (by decide) rfl,
   claim_C6.2.1 3 (by decide) _ _ addrText [5] 1 id (by decide) rfl rfl,
   claim_C6.2.2.1 3 (by decide) _ _ addrText [5] 1 id ⟨7⟩ (by decide) rfl rfl rfl,
   claim_C6.2.2.2 _ _ _ rfl⟩

/-- Claim C7: with `num_bcd16 = 0` the read returns Success, performs no
communicate call and leaves the output pointer exactly as given, whatever
the remaining arguments are (NULL session, NULL address, NULL data,
unconnected socket included), because the zero-count check of line 94 comes
first. -/
theorem claim_C7 :
    ∀ (maxRead : Nat) (hm : 0 < maxRead) (env : ReadEnv) (sys : Option FinsSys)
      (start : Option String) (data : Option (List Nat)) (bcdToInt : Nat → Nat),
      process_data maxRead hm env sys start data 0 bcdToInt =
        (FinsRetval.success, data, []) := by
  intro maxRead hm env sys start data bcdToInt
  unfold process_data
  rw [if_pos rfl]

/-- Claim C7 witness: zero-count read with NULL session, NULL address and
NULL data still succeeds with no I/O. -/
theorem claim_C7_witness :
    process_data 3 (by decide) ⟨none, fun _ => none, fun _ => (FinsRetval.otherError 0, [])⟩
        none none none 0 id = (FinsRetval.success, none, []) :=
  claim_C7 3 (by decide) _ none none none id

/-- Claim C8: `finslib_name_set` silently truncates the name to at most 8
bytes: a 12-byte name is transmitted as its first 8 bytes and the call
returns Success when the exchange succeeds with a 2-byte response; a NULL
name yields NoDataBlock instead of an empty write. -/
theorem claim_C8 :
    (∀ (s : FinsSys) (nm : List Nat) (comm : FinsRetval × List Nat),
      s.sockfdValid = true → nm.length = 12 → (∀ c ∈ nm, c ≠ 0) →
      comm.1 = FinsRetval.success → comm.2.length = 2 →
      finslib_name_set (some s) (some nm) comm = (FinsRetval.success, [nm.take 8])) ∧
    (∀ (s : FinsSys) (comm : FinsRetval × List Nat), s.sockfdValid = true →
      finslib_name_set (some s) none comm = (FinsRetval.noDataBlock, [])) := by
  constructor
  · intro s nm comm hs hlen hnz hok hresp
    unfold finslib_name_set
    dsimp only
    rw [hs, if_neg (by decide)]
    rw [nameCopy_eq_take nm hnz 0, Nat.sub_zero,
      if_neg (by rw [hok]; exact fun h => h rfl),
      if_neg (by rw [hresp]; exact fun h => h rfl)]
  · intro s comm hs
    unfold finslib_name_set
    dsimp only
    rw [hs, if_neg (by decide)]

/-- Claim C8 witness: a concrete 12-byte name is truncated to its first 8
bytes, and a NULL name fails with NoDataBlock. -/
theorem claim_C8_witness :
    finslib_name_set (some ⟨true, FinsTransport.stream⟩)
        (some [65, 66, 67, 68, 69, 70, 71, 72, 73, 74, 75, 76])
        (FinsRetval.success, [0, 0]) =
      (FinsRetval.success, [[65, 66, 67, 68, 69, 70, 71, 72]]) ∧
    finslib_name_set (some ⟨true, FinsTransport.stream⟩) none
        (FinsRetval.success, [0, 0]) = (FinsRetval.noDataBlock, []) :=
  ⟨claim_C8.1 _ _ _ rfl (by decide) (by decide) rfl rfl,
   claim_C8.2 _ _ rfl⟩

theorem bcdDigits_encode (n0 n1 n2 n3 : Nat) (b0 : n0 ≤ 9) (b1 : n1 ≤ 9)
    (b2 : n2 ≤ 9) (b3 : n3 ≤ 9) :
    encode_unsigned_bcd16 (n3 * 1000 + n2 * 100 + n1 * 10 + n0) =
      4096 * n3 + 256 * n2 + 16 * n1 + n0 := by
  unfold encode_unsigned_bcd16
  have e3 : (n3 * 1000 + n2 * 100 + n1 * 10 + n0) / 1000 % 10 = n3 := by omega
  have e2 : (n3 * 1000 + n2 * 100 + n1 * 10 + n0) / 100 % 10 = n2 := by omega
  have e1 : (n3 * 1000 + n2 * 100 + n1 * 10 + n0) / 10 % 10 = n1 := by omega
  have e0 : (n3 * 1000 + n2 * 100 + n1 * 10 + n0) % 10 = n0 := by omega
  rw [e3, e2, e1, e0]
  omega

/-- Claim C9: unsigned BCD16 encoding is the exact inverse of decoding on
every 16-bit word whose four nibbles are all decimal digits. -/
theorem claim_C9 :
    ∀ w : Nat, w < 65536 →
      nibble w 0 ≤ 9 → nibble w 1 ≤ 9 → nibble w 2 ≤ 9 → nibble w 3 ≤ 9 →
      encode_unsigned_bcd16 (decode_unsigned_bcd16 w) = w := by
  intro w hw h0 h1 h2 h3
  unfold decode_unsigned_bcd16
  rw [if_pos ⟨h0, h1, h2, h3⟩]
  unfold nibble at h0 h1 h2 h3 ⊢
  norm_num at h0 h1 h2 h3 ⊢
  rw [bcdDigits_encode (w % 16) (w / 16 % 16) (w / 256 % 16) (w / 4096 % 16) h0 h1 h2 h3]
  omega

/-- Claim C9 witness: round trip at the concrete word 0x1234. -/
theorem claim_C9_witness :
    encode_unsigned_bcd16 (decode_unsigned_bcd16 0x1234) = 0x1234 :=
  claim_C9 0x1234 (by decide) (by decide) (by decide) (by decide) (by decide)

/-- Claim C1: if all four nibbles of a word are decimal digits, the unsigned
BCD16 decode is the digit-weighted sum over positions (0x1234 decodes to
1234); if any nibble exceeds 9 the whole value is replaced by the sentinel
INT16_MAX = 32767; and a read whose responses are well formed still
succeeds whatever the word contents are, so an invalid word never fails the
call. -/
theorem claim_C1 :
    (∀ w : Nat, w < 65536 →
      nibble w 0 ≤ 9 ∧ nibble w 1 ≤ 9 ∧ nibble w 2 ≤ 9 ∧ nibble w 3 ≤ 9 →
      decode_unsigned_bcd16 w = ∑ i ∈ Finset.range 4, nibble w i * 10 ^ i) ∧
    (∀ w i : Nat, i < 4 → 9 < nibble w i → decode_unsigned_bcd16 w = 32767) ∧
    decode_unsigned_bcd16 0x1234 = 1234 ∧
    decode_unsigned_bcd16 0x12A4 = 32767 ∧
    (∀ (maxRead : Nat) (hm : 0 < maxRead) (env : ReadEnv) (s : FinsSys) (st : String)
      (buf : List Nat) (n : Nat) (addr : FinsAddressTp) (area : FinsAreaTp),
      0 < n → s.sockfdValid = true →
      env.decodeAddress = some addr → env.searchArea addr = some area →
      (∀ c, c * maxRead < n → chunkRespOk env maxRead 0 n c) →
      (finslib_memory_area_read_bcd16 maxRead hm env (some s) (some st) (some buf) n).1 =
        FinsRetval.success) := by
  refine ⟨?_, ?_, by decide, by decide, ?_⟩
  · intro w hw hv
    unfold decode_unsigned_bcd16
    rw [if_pos hv]
    rw [Finset.sum_range_succ, Finset.sum_range_succ, Finset.sum_range_succ,
      Finset.sum_range_one]
    norm_num
    omega
  · intro w i hi4 hgt
    unfold decode_unsigned_bcd16
    have hnv : ¬(nibble w 0 ≤ 9 ∧ nibble w 1 ≤ 9 ∧ nibble w 2 ≤ 9 ∧ nibble w 3 ≤ 9) := by
      intro hv
      interval_cases i
      all_goals omega
    rw [if_neg hnv]
  · intro maxRead hm env s st buf n addr area hn hs hdec hsearch hok
    unfold finslib_memory_area_read_bcd16
    rw [process_data_run maxRead hm env s st buf n decode_unsigned_bcd16 addr area
      (by omega) hs hdec hsearch]
    exact (readLoop_success maxRead hm env decode_unsigned_bcd16 area.area n hn 0
      (baseChunkStart addr area) 0 buf _ _ _ rfl hok).1

/-- Claim C1 witness: concrete decodes and a concrete read in which one word
is invalid BCD and the call still returns success. -/
theorem claim_C1_witness :
    decode_unsigned_bcd16 0x1234 = ∑ i ∈ Finset.range 4, nibble 0x1234 i * 10 ^ i ∧
    decode_unsigned_bcd16 0x12A4 = 32767 ∧
    (finslib_memory_area_read_bcd16 2 (by decide) envC1w (some ⟨true, FinsTransport.stream⟩)
        (some addrText) (some [0, 0]) 2).1 = FinsRetval.success :=
  ⟨claim_C1.1 0x1234 (by decide) (by decide),
   claim_C1.2.1 0x12A4 1 (by decide) (by decide),
   claim_C1.2.2.2.2 2 (by decide) envC1w ⟨true, FinsTransport.stream⟩ addrText [0, 0] 2
     { mainAddress := 0 } { area := 0x82, lowAddr := 0, lowId := 0 } (by decide) rfl rfl rfl
     (by
       intro c hc
       have hc0 : c = 0 := by omega
       subst hc0
       decide)⟩

/-- Claim C2: a bulk read whose responses are all well formed succeeds and
issues a nonempty sequence of chunks that starts at output offset 0, has
every chunk length positive and at most the per-chunk maximum, is contiguous
both in output offsets and (modulo `size_t`) in wire addresses, and has
lengths summing to the requested count; the decoded words land at output
positions `0, ..., n-1` in order and no other position changes. -/
theorem claim_C2 :
    ∀ (maxRead : Nat) (hm : 0 < maxRead) (env : ReadEnv) (s : FinsSys) (st : String)
      (buf : List Nat) (n : Nat) (addr : FinsAddressTp) (area : FinsAreaTp),
      0 < n → s.sockfdValid = true →
      env.decodeAddress = some addr → env.searchArea addr = some area →
      (∀ c, c * maxRead < n → chunkRespOk env maxRead 0 n c) →
      ∀ res dataOut tr,
        finslib_memory_area_read_bcd16 maxRead hm env (some s) (some st) (some buf) n =
          (res, dataOut, tr) →
        res = FinsRetval.success ∧
        0 < tr.length ∧
        (tr.getD 0 noCmd).offset = 0 ∧
        (∀ i, i < tr.length → 0 < (tr.getD i noCmd).chunkLength ∧
          (tr.getD i noCmd).chunkLength ≤ maxRead) ∧
        (∀ i, i + 1 < tr.length →
          (tr.getD (i + 1) noCmd).offset =
            (tr.getD i noCmd).offset + (tr.getD i noCmd).chunkLength ∧
          (tr.getD (i + 1) noCmd).chunkStart =
            ((tr.getD i noCmd).chunkStart + (tr.getD i noCmd).chunkLength) % sizeTMod) ∧
        (tr.map SentCmd.chunkLength).sum = n ∧
        ∃ buf2, dataOut = some buf2 ∧
          (∀ j, j < n → j < buf.length →
            buf2[j]? = some (readDecoded env decode_unsigned_bcd16 maxRead 0 j)) ∧
          (∀ p, n ≤ p → buf2[p]? = buf[p]?) := by
  intro maxRead hm env s st buf n addr area hn hs hdec hsearch hok res dataOut tr heq
  unfold finslib_memory_area_read_bcd16 at heq
  rw [process_data_run maxRead hm env s st buf n decode_unsigned_bcd16 addr area
    (by omega) hs hdec hsearch] at heq
  injection heq with h1 h2
  injection h2 with h2 h3
  subst h1 h2 h3
  obtain ⟨hres, hblen, hlow, hhigh, hval⟩ :=
    readLoop_success maxRead hm env decode_unsigned_bcd16 area.area n hn 0
      (baseChunkStart addr area) 0 buf _ _ _ rfl hok
  obtain ⟨htl, hto, htc, htcl, htb, htch, hts⟩ :=
    readLoop_trace maxRead hm env decode_unsigned_bcd16 area.area n hn 0
      (baseChunkStart addr area) 0 buf _ _ _ rfl
  refine ⟨hres, htl, hto, htb, htch, hts hres, _, rfl, ?_, ?_⟩
  · intro j hj hjb
    have hv := hval j hj (by omega)
    simp only [Nat.zero_add] at hv
    exact hv
  · intro p hp
    exact hhigh p (by omega)

/-- Claim C2 witness: a concrete 5-word read with maximum 2 words per chunk
succeeds with chunk lengths summing to 5 and contiguous offsets. -/
theorem claim_C2_witness :
    (finslib_memory_area_read_bcd16 2 (by decide) envC2w (some ⟨true, FinsTransport.stream⟩)
        (some addrText) (some [9, 9, 9, 9, 9, 9]) 5).1 = FinsRetval.success ∧
    ((finslib_memory_area_read_bcd16 2 (by decide) envC2w (some ⟨true, FinsTransport.stream⟩)
        (some addrText) (some [9, 9, 9, 9, 9, 9]) 5).2.2.map SentCmd.chunkLength).sum = 5 ∧
    ((finslib_memory_area_read_bcd16 2 (by decide) envC2w (some ⟨true, FinsTransport.stream⟩)
        (some addrText) (some [9, 9, 9, 9, 9, 9]) 5).2.2.getD 0 noCmd).offset = 0 := by
  have h := claim_C2 2 (by decide) envC2w ⟨true, FinsTransport.stream⟩ addrText
    [9, 9, 9, 9, 9, 9] 5 { mainAddress := 10 } { area := 0x82, lowAddr := 0x100, lowId := 1 }
    (by decide) rfl rfl rfl
    (by
      intro c hc
      have hc3 : c < 3 := by omega
      interval_cases c
      all_goals decide)
    _ _ _ rfl
  exact ⟨h.1, h.2.2.2.2.2.1, h.2.2.1⟩

/-- Claim C10: the response-length validation is an equality check, not a
minimum-length check: any response body length other than exactly
`2 + 2 * chunkLength` (including longer ones) makes the read return
BodyTooShort, and any name-set response body length other than exactly 2
does the same. -/
theorem claim_C10 :
    (∀ (maxRead : Nat) (hm : 0 < maxRead) (env : ReadEnv) (s : FinsSys) (st : String)
      (buf : List Nat) (n : Nat) (addr : FinsAddressTp) (area : FinsAreaTp),
      0 < n → s.sockfdValid = true →
      env.decodeAddress = some addr → env.searchArea addr = some area →
      (env.comm 0).1 = FinsRetval.success →
      (env.comm 0).2.length ≠ 2 + 2 * chunkLen maxRead n →
      (finslib_memory_area_read_bcd16 maxRead hm env (some s) (some st) (some buf) n).1 =
        FinsRetval.bodyTooShort) ∧
    (∀ (s : FinsSys) (nm : List Nat) (comm : FinsRetval × List Nat),
      s.sockfdValid = true → comm.1 = FinsRetval.success → comm.2.length ≠ 2 →
      (finslib_name_set (some s) (some nm) comm).1 = FinsRetval.bodyTooShort) := by
  constructor
  · intro maxRead hm env s st buf n addr area hn hs hdec hsearch hok0 hlen
    unfold finslib_memory_area_read_bcd16
    rw [process_data_run maxRead hm env s st buf n decode_unsigned_bcd16 addr area
      (by omega) hs hdec hsearch]
    have hfail : ¬ chunkRespOk env maxRead 0 n 0 := by
      unfold chunkRespOk
      simp only [Nat.add_zero, Nat.zero_mul, Nat.sub_zero]
      intro hc
      exact hlen hc.2
    have hres := (readLoop_fail maxRead hm env decode_unsigned_bcd16 area.area n hn 0 0
      (baseChunkStart addr area) 0 buf _ _ _ rfl (by omega)
      (fun c hc => absurd hc (by omega)) hfail).1
    simp only [Nat.add_zero] at hres
    show (readLoop maxRead hm env decode_unsigned_bcd16 area.area n 0
      (baseChunkStart addr area) 0 buf).1 = FinsRetval.bodyTooShort
    rw [hres, if_neg (fun h => h hok0)]
  · intro s nm comm hs hok hlen
    unfold finslib_name_set
    dsimp only
    rw [hs, if_neg (by decide), if_neg (fun h => h hok), if_pos hlen]

/-- Claim C10 witness: a response body longer than expected (8 bytes where 4
are expected) is rejected with BodyTooShort, and a 3-byte name-set response
likewise. -/
theorem claim_C10_witness :
    (finslib_memory_area_read_bcd16 3 (by decide) envC10w (some ⟨true, FinsTransport.stream⟩)
        (some addrText) (some [0]) 1).1 = FinsRetval.bodyTooShort ∧
    (finslib_name_set (some ⟨true, FinsTransport.stream⟩) (some [65])
        (FinsRetval.success, [0, 0, 0])).1 = FinsRetval.bodyTooShort :=
  ⟨claim_C10.1 3 (by decide) envC10w ⟨true, FinsTransport.stream⟩ addrText [0] 1
      { mainAddress := 0 } { area := 0x80, lowAddr := 0, lowId := 0 } (by decide) rfl rfl rfl
      rfl (by decide),
   claim_C10.2 ⟨true, FinsTransport.stream⟩ [65] (FinsRetval.success, [0, 0, 0]) rfl rfl
      (by decide)⟩

/-- Claim C4: a chunk whose response body is strictly shorter than
`2 + 2 * requestedCount` bytes makes the read return BodyTooShort without
writing any word of that chunk: every output position at or beyond the
prefix filled by the earlier chunks is unchanged. -/
theorem claim_C4 :
    ∀ (maxRead : Nat) (hm : 0 < maxRead) (env : ReadEnv) (s : FinsSys) (st : String)
      (buf : List Nat) (n f : Nat) (addr : FinsAddressTp) (area : FinsAreaTp),
      0 < n → s.sockfdValid = true →
      env.decodeAddress = some addr → env.searchArea addr = some area →
      f * maxRead < n →
      (∀ c, c < f → chunkRespOk env maxRead 0 n c) →
      (env.comm f).1 = FinsRetval.success →
      (env.comm f).2.length < 2 + 2 * chunkLen maxRead (n - f * maxRead) →
      ∀ res dataOut tr,
        finslib_memory_area_read_bcd16 maxRead hm env (some s) (some st) (some buf) n =
          (res, dataOut, tr) →
        res = FinsRetval.bodyTooShort ∧
        ∃ buf2, dataOut = some buf2 ∧
          ∀ p, f * maxRead ≤ p → buf2[p]? = buf[p]? := by
  intro maxRead hm env s st buf n f addr area hn hs hdec hsearch hfin hok hc1 hclen
    res dataOut tr heq
  unfold finslib_memory_area_read_bcd16 at heq
  rw [process_data_run maxRead hm env s st buf n decode_unsigned_bcd16 addr area
    (by omega) hs hdec hsearch] at heq
  injection heq with h1 h2
  injection h2 with h2 h3
  subst h1 h2 h3
  have hfail : ¬ chunkRespOk env maxRead 0 n f := by
    unfold chunkRespOk
    simp only [Nat.zero_add]
    intro hc
    omega
  obtain ⟨hres, hne, hblen, hlowu, hhighu, hvalu, htr⟩ :=
    readLoop_fail maxRead hm env decode_unsigned_bcd16 area.area n hn f 0
      (baseChunkStart addr area) 0 buf _ _ _ rfl hfin hok hfail
  simp only [Nat.zero_add] at hres
  refine ⟨?_, _, rfl, ?_⟩
  · rw [hres, if_neg (fun h => h hc1)]
  · intro p hp
    exact hhighu p (by omega)

/-- Claim C4 witness: chunk 1 of a 3-word read answers with 3 bytes where 4
are expected; the read returns BodyTooShort and position 2 of the output
(beyond the 2-word prefix of chunk 0) keeps its initial value. -/
theorem claim_C4_witness :
    (finslib_memory_area_read_bcd16 2 (by decide) envC4w (some ⟨true, FinsTransport.stream⟩)
        (some addrText) (some [7, 7, 7]) 3).1 = FinsRetval.bodyTooShort ∧
    ∃ buf2,
      (finslib_memory_area_read_bcd16 2 (by decide) envC4w (some ⟨true, FinsTransport.stream⟩)
          (some addrText) (some [7, 7, 7]) 3).2.1 = some buf2 ∧
      buf2[2]? = some 7 := by
  have h := claim_C4 2 (by decide) envC4w ⟨true, FinsTransport.stream⟩ addrText [7, 7, 7] 3 1
    { mainAddress := 0 } { area := 0x82, lowAddr := 0, lowId := 0 } (by decide) rfl rfl rfl
    (by decide)
    (by
      intro c hc
      have hc0 : c = 0 := by omega
      subst hc0
      decide)
    rfl (by decide) _ _ _ rfl
  obtain ⟨buf2, hb, hun⟩ := h.2
  refine ⟨h.1, buf2, hb, ?_⟩
  rw [hun 2 (by omega)]
  rfl

/-- Claim C5: chunked reads are non-atomic: when chunk `f` fails (communicate
error or malformed response) the corresponding failure status is returned
immediately after `f + 1` communicate calls, the output positions filled by
chunks `0, ..., f-1` keep their decoded values, and every other position is
untouched — no rollback happens. -/
theorem claim_C5 :
    ∀ (maxRead : Nat) (hm : 0 < maxRead) (env : ReadEnv) (s : FinsSys) (st : String)
      (buf : List Nat) (n f : Nat) (addr : FinsAddressTp) (area : FinsAreaTp),
      0 < n → s.sockfdValid = true →
      env.decodeAddress = some addr → env.searchArea addr = some area →
      f * maxRead < n →
      (∀ c, c < f → chunkRespOk env maxRead 0 n c) →
      ¬ chunkRespOk env maxRead 0 n f →
      ∀ res dataOut tr,
        finslib_memory_area_read_bcd16 maxRead hm env (some s) (some st) (some buf) n =
          (res, dataOut, tr) →
        res = (if (env.comm f).1 ≠ FinsRetval.success then (env.comm f).1
               else FinsRetval.bodyTooShort) ∧
        res ≠ FinsRetval.success ∧
        tr.length = f + 1 ∧
        ∃ buf2, dataOut = some buf2 ∧
          (∀ j, j < f * maxRead → j < buf.length →
            buf2[j]? = some (readDecoded env decode_unsigned_bcd16 maxRead 0 j)) ∧
          (∀ p, f * maxRead ≤ p → buf2[p]? = buf[p]?) := by
  intro maxRead hm env s st buf n f addr area hn hs hdec hsearch hfin hok hfail
    res dataOut tr heq
  unfold finslib_memory_area_read_bcd16 at heq
  rw [process_data_run maxRead hm env s st buf n decode_unsigned_bcd16 addr area
    (by omega) hs hdec hsearch] at heq
  injection heq with h1 h2
  injection h2 with h2 h3
  subst h1 h2 h3
  obtain ⟨hres, hne, hblen, hlowu, hhighu, hvalu, htr⟩ :=
    readLoop_fail maxRead hm env decode_unsigned_bcd16 area.area n hn f 0
      (baseChunkStart addr area) 0 buf _ _ _ rfl hfin hok hfail
  simp only [Nat.zero_add] at hres
  refine ⟨hres, hne, htr, _, rfl, ?_, ?_⟩
  · intro j hj hjb
    have hv := hvalu j hj (by omega)
    simp only [Nat.zero_add] at hv
    exact hv
  · intro p hp
    exact hhighu p (by omega)

/-- Claim C5 witness: a 3-word read whose second chunk fails with a
communicate error returns that error after 2 calls; the 2 words decoded by
chunk 0 (1234 and 9) stay in the output and position 2 keeps its initial
value. -/
theorem claim_C5_witness :
    (finslib_memory_area_read_bcd16 2 (by decide) envC5w (some ⟨true, FinsTransport.stream⟩)
        (some addrText) (some [7, 7, 7]) 3).1 = FinsRetval.otherError 3 ∧
    (finslib_memory_area_read_bcd16 2 (by decide) envC5w (some ⟨true, FinsTransport.stream⟩)
        (some addrText) (some [7, 7, 7]) 3).2.2.length = 2 ∧
    ∃ buf2,
      (finslib_memory_area_read_bcd16 2 (by decide) envC5w (some ⟨true, FinsTransport.stream⟩)
          (some addrText) (some [7, 7, 7]) 3).2.1 = some buf2 ∧
      buf2[0]? = some 1234 ∧ buf2[1]? = some 9 ∧ buf2[2]? = some 7 := by
  have h := claim_C5 2 (by decide) envC5w ⟨true, FinsTransport.stream⟩ addrText [7, 7, 7] 3 1
    { mainAddress := 0 } { area := 0x82, lowAddr := 0, lowId := 0 } (by decide) rfl rfl rfl
    (by decide)
    (by
      intro c hc
      have hc0 : c = 0 := by omega
      subst hc0
      decide)
    (by decide) _ _ _ rfl
  obtain ⟨buf2, hb, hv, hu⟩ := h.2.2.2
  exact ⟨h.1.trans (by decide), h.2.2.1, buf2, hb,
    (hv 0 (by decide) (by decide)).trans (by decide),
    (hv 1 (by decide) (by decide)).trans (by decide),
    (hu 2 (by decide)).trans (by decide)⟩

theorem readLoop_mem_le (maxRead : Nat) (hm : 0 < maxRead) (env : ReadEnv)
    (bcdToInt : Nat → Nat) (areaByte : Nat) :
    ∀ todo offset chunkStart k buf cmd,
      cmd ∈ (readLoop maxRead hm env bcdToInt areaByte todo offset chunkStart k buf).2.2 →
      cmd.chunkLength ≤ maxRead := by
  intro todo
  induction todo using Nat.strong_induction_on with
  | _ todo ih =>
    intro offset chunkStart k buf cmd hmem
    rw [readLoop] at hmem
    split at hmem
    · dsimp only at hmem
      simp only [List.mem_singleton] at hmem
      subst hmem
      exact chunkLen_le_max
    · split at hmem
      · dsimp only at hmem
        simp only [List.mem_singleton] at hmem
        subst hmem
        exact chunkLen_le_max
      · split at hmem
        · rename_i hmore
          dsimp only at hmem
          simp only [List.mem_cons] at hmem
          rcases hmem with hmem | hmem
          · subst hmem
            exact chunkLen_le_max
          · exact ih (todo - chunkLen maxRead todo)
              (by
                have h1 : 0 < chunkLen maxRead todo := chunkLen_pos hm (by omega)
                omega) _ _ _ _ _ hmem
        · dsimp only at hmem
          simp only [List.mem_singleton] at hmem
          subst hmem
          exact chunkLen_le_max

/-- Claim C3 (amended): every issued chunk's element count is at most
`FINS_MAX_READ_WORDS_SYSWAY`; but that maximum is a single compile-time
constant, not a per-session transport property: the whole result of the read
— statuses, buffer and issued chunks — is identical for a datagram session
and a stream session that agree on everything else, so the cap is not
smaller under datagram transport. -/
theorem claim_C3 :
    ∀ (maxRead : Nat) (hm : 0 < maxRead) (env : ReadEnv) (v : Bool) (t1 t2 : FinsTransport)
      (start : Option String) (data : Option (List Nat)) (n : Nat) (bcdToInt : Nat → Nat),
      process_data maxRead hm env (some ⟨v, t1⟩) start data n bcdToInt =
        process_data maxRead hm env (some ⟨v, t2⟩) start data n bcdToInt ∧
      (∀ cmd, cmd ∈ (process_data maxRead hm env (some ⟨v, t1⟩) start data n bcdToInt).2.2 →
        cmd.chunkLength ≤ maxRead) := by
  intro maxRead hm env v t1 t2 start data n bcdToInt
  refine ⟨process_data_transport maxRead hm env v t1 t2 start data n bcdToInt, ?_⟩
  intro cmd hmem
  unfold process_data at hmem
  by_cases hn : n = 0
  · rw [if_pos hn] at hmem
    simp at hmem
  · rw [if_neg hn] at hmem
    dsimp only at hmem
    cases start with
    | none => simp at hmem
    | some st =>
      dsimp only at hmem
      cases data with
      | none => simp at hmem
      | some buf =>
        dsimp only at hmem
        cases v with
        | false =>
          rw [if_pos rfl] at hmem
          simp at hmem
        | true =>
          rw [if_neg (by decide)] at hmem
          cases hdec : env.decodeAddress with
          | none =>
            rw [hdec] at hmem
            simp at hmem
          | some addr =>
            rw [hdec] at hmem
            dsimp only at hmem
            cases hsearch : env.searchArea addr with
            | none =>
              rw [hsearch] at hmem
              simp at hmem
            | some area =>
              rw [hsearch] at hmem
              dsimp only at hmem
              exact readLoop_mem_le maxRead hm env bcdToInt area.area n 0
                (baseChunkStart addr area) 0 buf cmd hmem

/-- Claim C3 counterexample: the claim that the per-chunk maximum is a
per-session transport property, smaller under datagram than under stream
transport, is false on this code: a concrete 4-word read issues exactly the
same chunk sequence under a datagram session as under a stream session, and
its first datagram chunk already has the full stream-side chunk length 2. -/
theorem claim_C3_counterexample :
    finslib_memory_area_read_bcd16 2 (by decide) envC3x
        (some ⟨true, FinsTransport.datagram⟩) (some addrText) (some [0, 0, 0, 0]) 4 =
      finslib_memory_area_read_bcd16 2 (by decide) envC3x
        (some ⟨true, FinsTransport.stream⟩) (some addrText) (some [0, 0, 0, 0]) 4 ∧
    ((finslib_memory_area_read_bcd16 2 (by decide) envC3x
        (some ⟨true, FinsTransport.datagram⟩) (some addrText)
        (some [0, 0, 0, 0]) 4).2.2.getD 0 noCmd).chunkLength = 2 := by
  constructor
  · exact process_data_transport 2 (by decide) envC3x true FinsTransport.datagram
      FinsTransport.stream (some addrText) (some [0, 0, 0, 0]) 4 decode_unsigned_bcd16
  · have hrun := process_data_run 2 (by decide) envC3x ⟨true, FinsTransport.datagram⟩ addrText
      [0, 0, 0, 0] 4 decode_unsigned_bcd16 { mainAddress := 0 }
      { area := 0x82, lowAddr := 0, lowId := 0 } (by decide) rfl rfl rfl
    have htr := readLoop_trace 2 (by decide) envC3x decode_unsigned_bcd16 0x82 4
      (by decide) 0 (baseChunkStart { mainAddress := 0 } { area := 0x82, lowAddr := 0, lowId := 0 })
      0 [0, 0, 0, 0] _ _ _ rfl
    show ((process_data 2 (by decide) envC3x (some ⟨true, FinsTransport.datagram⟩)
      (some addrText) (some [0, 0, 0, 0]) 4 decode_unsigned_bcd16).2.2.getD 0 noCmd).chunkLength = 2
    rw [hrun]
    exact htr.2.2.2.1

/-- Claim C3 witness: the amended claim at a concrete 4-word read: datagram
and stream sessions produce identical results, and every issued chunk is at
most 2 words. -/
theorem claim_C3_witness :
    process_data 2 (by decide) envC3x (some ⟨true, FinsTransport.datagram⟩) (some addrText)
        (some [0, 0, 0, 0]) 4 decode_unsigned_bcd16 =
      process_data 2 (by decide) envC3x (some ⟨true, FinsTransport.stream⟩) (some addrText)
        (some [0, 0, 0, 0]) 4 decode_unsigned_bcd16 ∧
    (∀ cmd, cmd ∈ (process_data 2 (by decide) envC3x (some ⟨true, FinsTransport.datagram⟩)
        (some addrText) (some [0, 0, 0, 0]) 4 decode_unsigned_bcd16).2.2 →
      cmd.chunkLength ≤ 2) :=
  claim_C3 2 (by decide) envC3x true FinsTransport.datagram FinsTransport.stream (some addrText)
    (some [0, 0, 0, 0]) 4 decode_unsigned_bcd16

